import Mathlib

/-!
Shallow embedding of the pricing engine (`src/rust/src/lib.rs`) and proofs
about the claims of its specification.

Modelling conventions:
* `f64` values are modelled as exact rationals (`Rat`).  None of the claims
  depends on floating-point rounding, NaN or infinities; the `f64::INFINITY`
  (resp. `NEG_INFINITY`) seed of the `min` (resp. `max`) fold is rendered as
  folding from the first list element, which agrees with the source on every
  finite input.
* `HashMap`s are modelled as association lists with `HashMap::insert`
  overwrite semantics (`insertL`).  Iteration order of a map is the insertion
  order of the list, one admissible order of the unordered Rust map.
* `serde_json::Value` is modelled as `JValue`; arrays/objects, which no claim
  exercises, are collapsed into the single constructor `JValue.other`.
* The external regex collaborator (spec section 6) is modelled by
  `wildMatch`, the direct semantics of the anchored regex
  `"^" ++ pattern.replace('*', "[^/]+") ++ "$"` built by `get_regex`
  (source line 399): a `*` matches one or more non-`/` characters, all
  other pattern characters match themselves.  `regexValid` is a minimal
  model of regex-compilation failure: a pattern whose parentheses are
  unbalanced (for example `"("`) makes the built regex string unparsable
  and `Regex::new(..).unwrap()` (source line 400) panic.  Panics are
  represented by the dedicated error constructors `RErr.panicInvalidRegex`
  and `RErr.panicIndexOutOfBounds`, kept distinct from the `Result::Err`
  string errors of the source, which are represented by the remaining
  `RErr` constructors (one per `format!` template in the source).
* Display/presentation strings inside `BreakdownEntry` (the `{:.2}`
  formatting and `Debug` list rendering) are presentation-only (spec
  section 4.5); they are carried along but rendered with simplified
  formatting (`fmt2`, `json_to_string`).
-/

namespace PricingEngine

/-- Model of `serde_json::Value`: strings, numbers (both the integer and the
floating-point cases of the Rust type collapse into `Rat`), booleans, null,
and `other` standing for arrays/objects. -/
inductive JValue where
  | str (s : String)
  | num (q : Rat)
  | bool (b : Bool)
  | null
  | other
  deriving DecidableEq, Repr

/-- `PricingNode` of the source (lines 10-17). -/
structure PricingNode where
  path : String
  node_type : String
  cost : Rat
  value : Option JValue
  deriving DecidableEq, Repr

/-- `Input` of the source (lines 21-24). -/
structure Input where
  path : String
  value : JValue
  deriving DecidableEq, Repr

/-- `Condition` of the source (lines 28-32). -/
structure Condition where
  left : JValue
  operator : String
  right : JValue
  deriving DecidableEq, Repr

/-- `Step` of the source (lines 37-117).  The `If` variant is named
`ifStep` (`if` is a keyword). -/
inductive Step where
  | add (id : Int) (name : Option String) (inputs : List JValue)
  | subtract (id : Int) (name : Option String) (inputs : List JValue)
  | multiply (id : Int) (name : Option String) (inputs : List JValue)
  | divide (id : Int) (name : Option String) (inputs : List JValue)
  | min (id : Int) (name : Option String) (inputs : List JValue)
  | max (id : Int) (name : Option String) (inputs : List JValue)
  | percentage (id : Int) (name : Option String) (inputs : List JValue)
      (percent : Option Rat)
  | round (id : Int) (name : Option String) (inputs : List JValue)
      (decimals : Option Int)
  | clamp (id : Int) (name : Option String) (value mn mx : JValue)
  | ifStep (id : Int) (name : Option String) (condition : Condition)
      (thenV : JValue) (elseV : Option JValue)
  deriving DecidableEq, Repr

/-- `Step::id` of the source (lines 120-133). -/
def Step.id : Step → Int
  | .add i _ _ => i
  | .subtract i _ _ => i
  | .multiply i _ _ => i
  | .divide i _ _ => i
  | .min i _ _ => i
  | .max i _ _ => i
  | .percentage i _ _ _ => i
  | .round i _ _ _ => i
  | .clamp i _ _ _ _ => i
  | .ifStep i _ _ _ _ => i

/-- `PricingStrategy` of the source (lines 153-158). -/
structure PricingStrategy where
  version : Int
  required_inputs : Option (List String)
  steps : List Step
  deriving DecidableEq, Repr

/-- `BreakdownEntry` of the source (lines 162-170). -/
structure BreakdownEntry where
  step_id : Int
  name : String
  operation : String
  description : String
  inputs : List Rat
  calculation : String
  result : Rat
  deriving DecidableEq, Repr

/-- `CalculationResult` of the source (lines 174-177). -/
structure CalculationResult where
  final_price : Rat
  breakdown : List BreakdownEntry
  deriving DecidableEq, Repr

/-- Error outcomes of a calculation.  Each constructor except the two
`panic` ones corresponds to one `format!` error template of the source
(`Result::Err(String)`); the `panic` constructors model Rust panics:
`Regex::new(..).unwrap()` on an unparsable pattern (line 400) and `Vec`
indexing out of bounds (`resolve_value(..)?[0]`, lines 907-909, 960-980). -/
inductive RErr where
  | missingRequiredInput (pat : String) (provided : List String)
  | duplicateInputPath (path : String)
  | invalidNumericInput (value : JValue) (path : String)
  | noPricingNode (path : String) (available : List String)
  | invalidValueForPath (value : JValue) (path : String) (available : List String)
  | invalidStepReference (s : String)
  | noWildcardMatch (pat : String) (available : List String)
  | requiresInput (step : String) (op : String)
  | divideRequiresTwo (step : String)
  | divisionByZero (step : String)
  | percentageArity (step : String)
  | percentageMissingPercent (step : String)
  | negativePercentage (step : String) (p : Rat)
  | roundArity (step : String)
  | roundMissingDecimals (step : String)
  | clampMinGtMax (step : String) (mn mx : Rat)
  | unsupportedOperator (step : String) (op : String)
  | panicInvalidRegex (pat : String)
  | panicIndexOutOfBounds
  deriving DecidableEq, Repr

/-- True exactly on the two constructors that model a Rust panic (process
abort), as opposed to a returned `Result::Err` value. -/
def RErr.isPanic : RErr → Bool
  | .panicInvalidRegex _ => true
  | .panicIndexOutOfBounds => true
  | _ => false

/-- Association-list lookup, first match wins. -/
def lookupL {κ α : Type} [DecidableEq κ] (k : κ) : List (κ × α) → Option α
  | [] => none
  | e :: rest => if e.1 = k then some e.2 else lookupL k rest

/-- Association-list insert with `HashMap::insert` overwrite semantics:
replaces the value at an existing key, appends a fresh key at the end. -/
def insertL {κ α : Type} [DecidableEq κ] (k : κ) (v : α) : List (κ × α) → List (κ × α)
  | [] => [(k, v)]
  | e :: rest => if e.1 = k then (k, v) :: rest else e :: insertL k v rest

/-- Matcher for the anchored regex built at source line 399
(`"^" ++ pattern.replace('*', "[^/]+") ++ "$"`): a `*` in the pattern
matches one or more characters other than `/`, every other pattern
character matches itself, and the whole path must be consumed. -/
def rmatch : List Char → List Char → Bool
  | p, [] =>
      match p with
      | [] => true
      | _ :: _ => false
  | p, c :: ss =>
      match p with
      | [] => false
      | '*' :: ps =>
          if c = '/' then false else (rmatch ps ss || rmatch ('*' :: ps) ss)
      | q :: ps => q == c && rmatch ps ss

/-- Whether `pat` (as a wildcard pattern) matches `path`. -/
def wildMatch (pat path : String) : Bool :=
  rmatch pat.data path.data

/-- Parenthesis balance check used by `regexValid`. -/
def parenBalanced : Nat → List Char → Bool
  | d, [] => d == 0
  | d, '(' :: rest => parenBalanced (d + 1) rest
  | d, ')' :: rest =>
      match d with
      | 0 => false
      | d' + 1 => parenBalanced d' rest
  | d, _ :: rest => parenBalanced d rest

/-- Modelled from the spec (section 4.1, section 6): the external regex
collaborator can fail to compile a pattern ("an unparsable pattern is a
fatal configuration error").  Minimal model of that failure: the regex
string built from a pattern with unbalanced parentheses (for example
`"("`, which becomes the regex `"^($"`) does not parse; every other
character is treated as a literal. -/
def regexValid (pat : String) : Bool :=
  parenBalanced 0 pat.data

/-- `PricingEngine::get_regex` (lines 395-404).  `Regex::new(..).unwrap()`
panics when the pattern does not compile; the memoizing cache only stores
successfully compiled matchers and is observationally transparent, so it is
elided. -/
def get_regex (pat : String) : Except RErr (String → Bool) :=
  if regexValid pat then .ok (fun path => wildMatch pat path)
  else .error (.panicInvalidRegex pat)

/-- Rendering of a `serde_json::Value` by its `Display` instance (JSON
text), used in error payloads; quoting of strings is kept, non-scalar
rendering is idealized. -/
def json_to_string : JValue → String
  | .str s => "\"" ++ s ++ "\""
  | .num q => if q.den = 1 then toString q.num else toString q
  | .bool b => if b then "true" else "false"
  | .null => "null"
  | .other => "[]"

/-- Stringification of a label node's discrete value (source lines 259-264):
strings pass through, numbers and booleans use their textual form, anything
else falls back to JSON rendering.  Integer numbers (the only numeric case
any claim exercises) render exactly as in Rust. -/
def stringify_node_value : JValue → String
  | .str s => s
  | .num q => if q.den = 1 then toString q.num else toString q
  | .bool b => if b then "true" else "false"
  | v => json_to_string v

/-- Stringification of an input value (source lines 315-321); same rule,
with `Null` explicitly rendered `"null"`. -/
def stringify_input_value : JValue → String
  | .str s => s
  | .num q => if q.den = 1 then toString q.num else toString q
  | .bool b => if b then "true" else "false"
  | .null => "null"
  | v => json_to_string v

/-- `serde_json::Value::as_f64` (also covering the `as_i64` fallback of
source lines 385-388): only numbers are numeric. -/
def asF64 : JValue → Option Rat
  | .num q => some q
  | _ => none

/-- Appends a node to the `nodes_by_path` group of its path
(`entry(..).or_insert_with(Vec::new).push(..)`, source lines 250-254). -/
def push_node (path : String) (n : PricingNode) :
    List (String × List PricingNode) → List (String × List PricingNode)
  | [] => [(path, [n])]
  | e :: rest =>
      if e.1 = path then (e.1, e.2 ++ [n]) :: rest
      else e :: push_node path n rest

/-- Accumulating loop of `index_nodes_by_path` (source lines 250-267). -/
def index_loop :
    List PricingNode →
    List (String × List PricingNode) × List ((String × String) × PricingNode) ×
      List (String × PricingNode) →
    List (String × List PricingNode) × List ((String × String) × PricingNode) ×
      List (String × PricingNode)
  | [], acc => acc
  | node :: rest, (byp, lbl, num) =>
      let byp' := push_node node.path node byp
      if node.node_type = "numeric" then
        index_loop rest (byp', lbl, insertL node.path node num)
      else
        match node.value with
        | some v =>
            index_loop rest
              (byp', insertL (node.path, stringify_node_value v) node lbl, num)
        | none => index_loop rest (byp', lbl, num)

/-- `PricingEngine::index_nodes_by_path` (lines 238-270): all nodes grouped
by path, label nodes keyed by `(path, stringified value)`, numeric nodes
keyed by path. -/
def index_nodes_by_path (nodes : List PricingNode) :
    List (String × List PricingNode) × List ((String × String) × PricingNode) ×
      List (String × PricingNode) :=
  index_loop nodes ([], [], [])

/-- Loop body of `validate_required_inputs` (source lines 281-291). -/
def validateLoop (input_paths : List String) : List String → Except RErr Unit
  | [] => .ok ()
  | pat :: rest =>
      match get_regex pat with
      | .error e => .error e
      | .ok m =>
          if input_paths.any m then validateLoop input_paths rest
          else .error (.missingRequiredInput pat input_paths)

/-- `PricingEngine::validate_required_inputs` (lines 273-294). -/
def validate_required_inputs (strat : PricingStrategy) (inputs : List Input) :
    Except RErr Unit :=
  match strat.required_inputs with
  | none => .ok ()
  | some pats => validateLoop (inputs.map Input.path) pats

/-- Whether a matched node accepts the given input value (source lines
329-339): a numeric-typed node requires a numeric value, any other node
accepts unconditionally. -/
def node_accepts (n : PricingNode) (v : JValue) : Bool :=
  if n.node_type = "numeric" then (asF64 v).isSome else true

/-- Loop body of `calculate_input_costs` (source lines 306-362), with the
accumulated per-path cost table threaded explicitly. -/
def costsLoop (byp : List (String × List PricingNode))
    (lbl : List ((String × String) × PricingNode))
    (num : List (String × PricingNode)) :
    List Input → List (String × Rat) → Except RErr (List (String × Rat))
  | [], acc => .ok acc
  | inp :: rest, acc =>
      if (lookupL inp.path acc).isSome then
        .error (.duplicateInputPath inp.path)
      else
        let vstr := stringify_input_value inp.value
        let matching_node :=
          match lookupL (inp.path, vstr) lbl with
          | some n => some n
          | none => lookupL inp.path num
        match matching_node with
        | some node =>
            if node.node_type = "numeric" then
              match asF64 inp.value with
              | some v => costsLoop byp lbl num rest (insertL inp.path (v * node.cost) acc)
              | none => .error (.invalidNumericInput inp.value inp.path)
            else
              costsLoop byp lbl num rest (insertL inp.path node.cost acc)
        | none =>
            if (lookupL inp.path byp).isSome then
              .error (.invalidValueForPath inp.value inp.path
                ((((lookupL inp.path byp).getD []).filter
                    (fun n => n.node_type == "label")).filterMap
                  (fun n => n.value.map json_to_string)))
            else
              .error (.noPricingNode inp.path (byp.map Prod.fst))

/-- `PricingEngine::calculate_input_costs` (lines 297-365). -/
def calculate_input_costs (inputs : List Input)
    (byp : List (String × List PricingNode))
    (lbl : List ((String × String) × PricingNode))
    (num : List (String × PricingNode)) : Except RErr (List (String × Rat)) :=
  costsLoop byp lbl num inputs []

/-- `PricingEngine::resolve_wildcard_pattern` (lines 407-428). -/
def resolve_wildcard_pattern (pat : String) (costs : List (String × Rat)) :
    Except RErr (List Rat) :=
  match get_regex pat with
  | .error e => .error e
  | .ok m =>
      let matching := (costs.filter (fun kv => m kv.1)).map Prod.snd
      if matching.isEmpty then
        .error (.noWildcardMatch pat (costs.map Prod.fst))
      else .ok matching

/-- Rust `str::starts_with`. -/
def strStartsWith (s p : String) : Bool :=
  p.data.isPrefixOf s.data

/-- Rust byte slicing `s[n..]` (all strings involved are ASCII). -/
def strDrop (s : String) (n : Nat) : String :=
  String.mk (s.data.drop n)

/-- Rust `str::contains(char)`. -/
def strContainsChar (s : String) (c : Char) : Bool :=
  s.data.contains c

/-- Rust `str::parse::<i32>`: optional sign, one or more decimal digits,
value within the `i32` range. -/
def parseI32 (s : String) : Option Int :=
  let signDigits : Int × List Char :=
    match s.data with
    | '+' :: rest => (1, rest)
    | '-' :: rest => (-1, rest)
    | l => (1, l)
  if signDigits.2.isEmpty then none
  else if signDigits.2.all Char.isDigit then
    let n : Nat := signDigits.2.foldl (fun acc c => acc * 10 + (c.toNat - 48)) 0
    let v : Int := signDigits.1 * n
    if -2147483648 ≤ v ∧ v ≤ 2147483647 then some v else none
  else none

/-- `PricingEngine::resolve_value` (lines 368-392). -/
def resolve_value (v : JValue) (sv : List (Int × Rat))
    (costs : List (String × Rat)) : Except RErr (List Rat) :=
  match v with
  | .str s =>
      if strStartsWith s "step__" then
        match parseI32 (strDrop s 6) with
        | none => .error (.invalidStepReference s)
        | some id => .ok [(lookupL id sv).getD 0]
      else if strContainsChar s '*' then
        resolve_wildcard_pattern s costs
      else
        .ok [(lookupL s costs).getD 0]
  | .num q => .ok [q]
  | _ => .ok [0]

/-- `PricingEngine::resolve_inputs` (lines 523-535): concatenation of the
value lists of each input reference, in list order. -/
def resolve_inputs (inputs : List JValue) (sv : List (Int × Rat))
    (costs : List (String × Rat)) : Except RErr (List Rat) :=
  match inputs with
  | [] => .ok []
  | v :: rest =>
      match resolve_value v sv costs with
      | .error e => .error e
      | .ok vals =>
          match resolve_inputs rest sv costs with
          | .error e => .error e
          | .ok more => .ok (vals ++ more)

/-- Rust `vec[0]` on the freshly resolved list (`resolve_value(..)?[0]`):
indexing an empty vector panics. -/
def firstOrPanic : List Rat → Except RErr Rat
  | [] => .error .panicIndexOutOfBounds
  | x :: _ => .ok x

/-- The composite `self.resolve_value(..)?[0]` used by `process_clamp`
(lines 907-909) and `process_if` (lines 960-980). -/
def resolve_first (v : JValue) (sv : List (Int × Rat))
    (costs : List (String × Rat)) : Except RErr Rat :=
  match resolve_value v sv costs with
  | .error e => .error e
  | .ok l => firstOrPanic l

/-- Step display name: `name.unwrap_or("Step {id}")`. -/
def step_display_name (id : Int) (name : Option String) : String :=
  name.getD ("Step " ++ toString id)

/-- Simplified rendering of the `{:.2}` presentation formatting (the
breakdown strings are presentation-only, spec section 4.5). -/
def fmt2 (q : Rat) : String :=
  if q.den = 1 then toString q.num else toString q

/-- `PricingEngine::process_add` (lines 538-572). -/
def process_add (id : Int) (name : Option String) (inputs : List JValue)
    (sv : List (Int × Rat)) (costs : List (String × Rat)) :
    Except RErr (Rat × BreakdownEntry) :=
  let step_name := step_display_name id name
  match resolve_inputs inputs sv costs with
  | .error e => .error e
  | .ok resolved =>
      if resolved.isEmpty then .error (.requiresInput step_name "add")
      else
        let result := resolved.foldl (· + ·) 0
        .ok (result,
          { step_id := id, name := step_name, operation := "Addition",
            description := "Sum of " ++ toString resolved.length ++ " values",
            inputs := resolved,
            calculation := String.intercalate " + " (resolved.map fmt2),
            result := result })

/-- `PricingEngine::process_subtract` (lines 575-616). -/
def process_subtract (id : Int) (name : Option String) (inputs : List JValue)
    (sv : List (Int × Rat)) (costs : List (String × Rat)) :
    Except RErr (Rat × BreakdownEntry) :=
  let step_name := step_display_name id name
  match resolve_inputs inputs sv costs with
  | .error e => .error e
  | .ok resolved =>
      match resolved with
      | [] => .error (.requiresInput step_name "subtract")
      | x :: rest =>
          let result := rest.foldl (· - ·) x
          .ok (result,
            { step_id := id, name := step_name, operation := "Subtraction",
              description := "Subtract " ++ toString rest.length ++
                " value(s) from base",
              inputs := resolved,
              calculation := String.intercalate " - " (resolved.map fmt2),
              result := result })

/-- `PricingEngine::process_multiply` (lines 619-657). -/
def process_multiply (id : Int) (name : Option String) (inputs : List JValue)
    (sv : List (Int × Rat)) (costs : List (String × Rat)) :
    Except RErr (Rat × BreakdownEntry) :=
  let step_name := step_display_name id name
  match resolve_inputs inputs sv costs with
  | .error e => .error e
  | .ok resolved =>
      if resolved.isEmpty then .error (.requiresInput step_name "multiply")
      else
        let result := resolved.foldl (· * ·) 1
        .ok (result,
          { step_id := id, name := step_name, operation := "Multiplication",
            description := "Product of " ++ toString resolved.length ++ " values",
            inputs := resolved,
            calculation := String.intercalate " x " (resolved.map fmt2),
            result := result })

/-- Division loop of `process_divide` (source lines 675-681): each divisor
is tested against zero before dividing. -/
def divideLoop (step_name : String) : Rat → List Rat → Except RErr Rat
  | acc, [] => .ok acc
  | acc, d :: rest =>
      if d = 0 then .error (.divisionByZero step_name)
      else divideLoop step_name (acc / d) rest

/-- `PricingEngine::process_divide` (lines 660-705). -/
def process_divide (id : Int) (name : Option String) (inputs : List JValue)
    (sv : List (Int × Rat)) (costs : List (String × Rat)) :
    Except RErr (Rat × BreakdownEntry) :=
  let step_name := step_display_name id name
  match resolve_inputs inputs sv costs with
  | .error e => .error e
  | .ok resolved =>
      match resolved with
      | a :: b :: rest =>
          match divideLoop step_name a (b :: rest) with
          | .error e => .error e
          | .ok result =>
              .ok (result,
                { step_id := id, name := step_name, operation := "Division",
                  description := "Divide " ++ fmt2 a ++ " by " ++
                    toString (rest.length + 1) ++ " value(s)",
                  inputs := resolved,
                  calculation := String.intercalate " / " (resolved.map fmt2),
                  result := result })
      | _ => .error (.divideRequiresTwo step_name)

/-- `PricingEngine::process_min` (lines 708-748).  The
`fold(f64::INFINITY, f64::min)` of the source equals the fold from the
first element on every finite value list. -/
def process_min (id : Int) (name : Option String) (inputs : List JValue)
    (sv : List (Int × Rat)) (costs : List (String × Rat)) :
    Except RErr (Rat × BreakdownEntry) :=
  let step_name := step_display_name id name
  match resolve_inputs inputs sv costs with
  | .error e => .error e
  | .ok resolved =>
      match resolved with
      | [] => .error (.requiresInput step_name "min")
      | x :: rest =>
          let result := rest.foldl min x
          .ok (result,
            { step_id := id, name := step_name, operation := "Minimum",
              description := "Minimum of " ++ toString resolved.length ++ " values",
              inputs := resolved,
              calculation := "min(" ++ String.intercalate ", " (resolved.map fmt2) ++ ")",
              result := result })

/-- `PricingEngine::process_max` (lines 751-791); dual of `process_min`. -/
def process_max (id : Int) (name : Option String) (inputs : List JValue)
    (sv : List (Int × Rat)) (costs : List (String × Rat)) :
    Except RErr (Rat × BreakdownEntry) :=
  let step_name := step_display_name id name
  match resolve_inputs inputs sv costs with
  | .error e => .error e
  | .ok resolved =>
      match resolved with
      | [] => .error (.requiresInput step_name "max")
      | x :: rest =>
          let result := rest.foldl max x
          .ok (result,
            { step_id := id, name := step_name, operation := "Maximum",
              description := "Maximum of " ++ toString resolved.length ++ " values",
              inputs := resolved,
              calculation := "max(" ++ String.intercalate ", " (resolved.map fmt2) ++ ")",
              result := result })

/-- Shared tail of `process_percentage` (source lines 822-843): negative
percent check, then `first * percent / 100`. -/
def percentage_result (id : Int) (step_name : String) (resolved : List Rat)
    (base p : Rat) : Except RErr (Rat × BreakdownEntry) :=
  if p < 0 then .error (.negativePercentage step_name p)
  else
    let result := base * p / 100
    .ok (result,
      { step_id := id, name := step_name, operation := "Percentage",
        description := fmt2 p ++ " percent of " ++ fmt2 base,
        inputs := resolved,
        calculation := fmt2 base ++ " x " ++ fmt2 p ++ " percent",
        result := result })

/-- `PricingEngine::process_percentage` (lines 794-844). -/
def process_percentage (id : Int) (name : Option String)
    (inputs : List JValue) (percent : Option Rat) (sv : List (Int × Rat))
    (costs : List (String × Rat)) : Except RErr (Rat × BreakdownEntry) :=
  let step_name := step_display_name id name
  match resolve_inputs inputs sv costs with
  | .error e => .error e
  | .ok resolved =>
      match resolved with
      | [a] =>
          match percent with
          | none => .error (.percentageMissingPercent step_name)
          | some p => percentage_result id step_name resolved a p
      | [a, b] => percentage_result id step_name resolved a b
      | _ => .error (.percentageArity step_name)

/-- Rust `f64 as i32`: truncation toward zero (the saturation at the `i32`
range, which no claim exercises, is elided). -/
def ratTrunc (q : Rat) : Int :=
  if 0 ≤ q then ⌊q⌋ else ⌈q⌉

/-- Rust `f64::round`: round half away from zero. -/
def f64Round (q : Rat) : Int :=
  if 0 ≤ q then ⌊q + 1 / 2⌋ else ⌈q - 1 / 2⌉

/-- Shared tail of `process_round` (source lines 876-891). -/
def round_result (id : Int) (step_name : String) (resolved : List Rat)
    (value : Rat) (dec : Int) : Except RErr (Rat × BreakdownEntry) :=
  let multiplier : Rat := (10 : Rat) ^ dec
  let result := (f64Round (value * multiplier) : Rat) / multiplier
  .ok (result,
    { step_id := id, name := step_name, operation := "Round",
      description := "Round " ++ fmt2 value ++ " to " ++ toString dec ++
        " decimal places",
      inputs := resolved,
      calculation := "round(" ++ fmt2 value ++ ", " ++ toString dec ++ ")",
      result := result })

/-- `PricingEngine::process_round` (lines 847-892). -/
def process_round (id : Int) (name : Option String) (inputs : List JValue)
    (decimals : Option Int) (sv : List (Int × Rat))
    (costs : List (String × Rat)) : Except RErr (Rat × BreakdownEntry) :=
  let step_name := step_display_name id name
  match resolve_inputs inputs sv costs with
  | .error e => .error e
  | .ok resolved =>
      match resolved with
      | [a] =>
          match decimals with
          | none => .error (.roundMissingDecimals step_name)
          | some d => round_result id step_name resolved a d
      | [a, b] => round_result id step_name resolved a (ratTrunc b)
      | _ => .error (.roundArity step_name)

/-- `PricingEngine::process_clamp` (lines 895-945). -/
def process_clamp (id : Int) (name : Option String) (value mn mx : JValue)
    (sv : List (Int × Rat)) (costs : List (String × Rat)) :
    Except RErr (Rat × BreakdownEntry) :=
  let step_name := step_display_name id name
  match resolve_first value sv costs with
  | .error e => .error e
  | .ok val =>
  match resolve_first mn sv costs with
  | .error e => .error e
  | .ok min_val =>
  match resolve_first mx sv costs with
  | .error e => .error e
  | .ok max_val =>
  if min_val > max_val then
    .error (.clampMinGtMax step_name min_val max_val)
  else
    let result := min (max val min_val) max_val
    .ok (result,
      { step_id := id, name := step_name, operation := "Clamp",
        description := "Clamp " ++ fmt2 val ++ " between " ++ fmt2 min_val ++
          " and " ++ fmt2 max_val,
        inputs := [val, min_val, max_val],
        calculation := "clamp(" ++ fmt2 val ++ ", " ++ fmt2 min_val ++ ", " ++
          fmt2 max_val ++ ")",
        result := result })

/-- Condition operator dispatch of `process_if` (source lines 963-976):
`none` models the `unsupported operator` arm. -/
def evalOp (op : String) (a b : Rat) : Option Bool :=
  match op with
  | ">" => some (decide (a > b))
  | "<" => some (decide (a < b))
  | ">=" => some (decide (a ≥ b))
  | "<=" => some (decide (a ≤ b))
  | "==" => some (decide (a = b))
  | "!=" => some (decide (a ≠ b))
  | _ => none

/-- `PricingEngine::process_if` (lines 948-1011).  Both branch references
are resolved before the condition result selects one of them; a missing
`else` contributes `0.0`. -/
def process_if (id : Int) (name : Option String) (cond : Condition)
    (thenV : JValue) (elseV : Option JValue) (sv : List (Int × Rat))
    (costs : List (String × Rat)) : Except RErr (Rat × BreakdownEntry) :=
  let step_name := step_display_name id name
  match resolve_first cond.left sv costs with
  | .error e => .error e
  | .ok left_val =>
  match resolve_first cond.right sv costs with
  | .error e => .error e
  | .ok right_val =>
  match evalOp cond.operator left_val right_val with
  | none => .error (.unsupportedOperator step_name cond.operator)
  | some condition_result =>
  match resolve_first thenV sv costs with
  | .error e => .error e
  | .ok then_val =>
  match (match elseV with
         | some ev => resolve_first ev sv costs
         | none => .ok 0) with
  | .error e => .error e
  | .ok else_val =>
  let result := if condition_result then then_val else else_val
  .ok (result,
    { step_id := id, name := step_name, operation := "Conditional",
      description := "If " ++ fmt2 left_val ++ " " ++ cond.operator ++ " " ++
        fmt2 right_val ++ " then " ++ fmt2 then_val ++ " else " ++ fmt2 else_val,
      inputs := [left_val, right_val, then_val, else_val],
      calculation := fmt2 left_val ++ " " ++ cond.operator ++ " " ++
        fmt2 right_val ++ " to " ++ fmt2 result,
      result := result })

/-- `PricingEngine::process_step` (lines 431-521): dispatch on the step
variant. -/
def process_step (step : Step) (sv : List (Int × Rat))
    (costs : List (String × Rat)) : Except RErr (Rat × BreakdownEntry) :=
  match step with
  | .add id name inputs => process_add id name inputs sv costs
  | .subtract id name inputs => process_subtract id name inputs sv costs
  | .multiply id name inputs => process_multiply id name inputs sv costs
  | .divide id name inputs => process_divide id name inputs sv costs
  | .min id name inputs => process_min id name inputs sv costs
  | .max id name inputs => process_max id name inputs sv costs
  | .percentage id name inputs percent =>
      process_percentage id name inputs percent sv costs
  | .round id name inputs decimals =>
      process_round id name inputs decimals sv costs
  | .clamp id name value mn mx => process_clamp id name value mn mx sv costs
  | .ifStep id name condition thenV elseV =>
      process_if id name condition thenV elseV sv costs

/-- Step iteration of `calculate` (source lines 217-222): each step's
result is stored under its declared id, breakdown entries accumulate in
step order. -/
def runSteps (costs : List (String × Rat)) :
    List Step → List (Int × Rat) → List BreakdownEntry →
    Except RErr (List (Int × Rat) × List BreakdownEntry)
  | [], sv, bd => .ok (sv, bd)
  | step :: rest, sv, bd =>
      match process_step step sv costs with
      | .error e => .error e
      | .ok (result, entry) =>
          runSteps costs rest (insertL step.id result sv) (bd ++ [entry])

/-- The part of `calculate` after required-input validation (source lines
205-234): input cost resolution, step execution, final price extraction
(the last step's stored value, `0` for an empty strategy). -/
def calculate_after_validation (nodes : List PricingNode)
    (strat : PricingStrategy) (inputs : List Input) :
    Except RErr CalculationResult :=
  let idx := index_nodes_by_path nodes
  match calculate_input_costs inputs idx.1 idx.2.1 idx.2.2 with
  | .error e => .error e
  | .ok costs =>
      match runSteps costs strat.steps [] [] with
      | .error e => .error e
      | .ok (sv, breakdown) =>
          let final_price :=
            match strat.steps.getLast? with
            | some last => (lookupL last.id sv).getD 0
            | none => 0
          .ok { final_price := final_price, breakdown := breakdown }

/-- `PricingEngine::calculate` (lines 193-235): validate required inputs,
then resolve input costs and run the steps. -/
def calculate (nodes : List PricingNode) (strat : PricingStrategy)
    (inputs : List Input) : Except RErr CalculationResult :=
  match validate_required_inputs strat inputs with
  | .error e => .error e
  | .ok _ => calculate_after_validation nodes strat inputs

/-- Projection used by concrete statements: the final price of a successful
calculation. -/
def okPrice : Except RErr CalculationResult → Option Rat
  | .ok r => some r.final_price
  | .error _ => none

/-- Projection used by concrete statements: the error of a failed
calculation. -/
def errOf {α : Type} : Except RErr α → Option RErr
  | .ok _ => none
  | .error e => some e

/-- Whether an input finds a matching node (label first, numeric fallback,
source lines 324-326) that accepts its value (source lines 329-339): the
per-input success condition of the cost-resolution loop. -/
def input_resolves (lbl : List ((String × String) × PricingNode))
    (num : List (String × PricingNode)) (inp : Input) : Bool :=
  match (match lookupL (inp.path, stringify_input_value inp.value) lbl with
         | some n => some n
         | none => lookupL inp.path num) with
  | some n => node_accepts n inp.value
  | none => false

/-- True exactly on the duplicate-path error of source lines 309-312. -/
def is_duplicate_path_error : Option RErr → Bool
  | some (.duplicateInputPath _) => true
  | _ => false

/-- The pricing-node catalog of the worked example
(`src/rust/examples/main.rs`, lines 6-55). -/
def exampleNodes : List PricingNode :=
  [ { path := "/material", node_type := "label", cost := 100,
      value := some (.str "tpa") },
    { path := "/material", node_type := "label", cost := 20,
      value := some (.str "pla") },
    { path := "/material", node_type := "label", cost := 0,
      value := some (.str "resin") },
    { path := "/material/resin/color", node_type := "label", cost := 30,
      value := some (.str "red") },
    { path := "/material/resin/color", node_type := "label", cost := 30,
      value := some (.str "blue") },
    { path := "/material/pla/color", node_type := "label", cost := 300,
      value := some (.str "blue") },
    { path := "/volume", node_type := "numeric", cost := 10, value := none },
    { path := "/time_taken", node_type := "numeric", cost := 100, value := none } ]

/-- The pricing strategy of the worked example
(`src/rust/examples/main.rs`, lines 58-113). -/
def exampleStrategy : PricingStrategy :=
  { version := 1,
    required_inputs := some ["/volume", "/time_taken", "/material/*/color"],
    steps :=
      [ .add 1 (some "Base Cost Calculation")
          [.str "/volume", .str "/time_taken", .str "/material/*/color"],
        .multiply 2 (some "Apply Markup") [.num 2, .str "step__1"],
        .ifStep 3 (some "Conditional Pricing")
          { left := .str "step__2", operator := ">", right := .num 200 }
          (.str "step__2") (some (.num 0)),
        .percentage 4 (some "Calculate 15 Percent Tax")
          [.str "step__3", .num 15] none,
        .add 5 (some "Total with Tax") [.str "step__3", .str "step__4"],
        .subtract 6 (some "Apply Discount") [.str "step__5", .num 10],
        .clamp 7 (some "Clamp Final Price") (.str "step__6") (.num 50)
          (.num 500) ] }

/-- The inputs of the worked example (`src/rust/examples/main.rs`,
lines 119-132). -/
def exampleInputs : List Input :=
  [ { path := "/volume", value := .num 2 },
    { path := "/time_taken", value := .num 1 },
    { path := "/material/resin/color", value := .str "blue" } ]

/-- Projection used in proofs: the numeric result of a successful step. -/
def okVal : Except RErr (Rat × BreakdownEntry) → Option Rat
  | .ok (r, _) => some r
  | .error _ => none

/-!
Helper lemmas shared by the claim proofs.
-/

theorem okVal_eq_some {x : Except RErr (Rat × BreakdownEntry)} {r : Rat}
    (h : okVal x = some r) : ∃ e, x = .ok (r, e) := by
  match x with
  | .ok (v, e) =>
    simp only [okVal, Option.some.injEq] at h
    exact ⟨e, by rw [h]⟩
  | .error e => simp [okVal] at h

theorem runSteps_cons {costs : List (String × Rat)} {step : Step}
    {rest : List Step} {sv : List (Int × Rat)} {bd : List BreakdownEntry}
    {r : Rat} {e : BreakdownEntry} (h : process_step step sv costs = .ok (r, e)) :
    runSteps costs (step :: rest) sv bd =
      runSteps costs rest (insertL step.id r sv) (bd ++ [e]) := by
  rw [runSteps, h]

theorem resolve_wildcard_ne_ok_nil (p : String) (costs : List (String × Rat)) :
    resolve_wildcard_pattern p costs ≠ .ok [] := by
  unfold resolve_wildcard_pattern get_regex
  by_cases hv : regexValid p = true
  · simp only [hv, if_true]
    by_cases he : (List.map Prod.snd (List.filter (fun kv => wildMatch p kv.1) costs)).isEmpty = true
    · simp [he]
    · simp only [eq_false_of_ne_true he, Bool.false_eq_true, if_false]
      intro hh
      rw [Except.ok.injEq] at hh
      rw [hh] at he
      exact he rfl
  · simp [hv]

theorem resolve_wildcard_ne_panicIndex (p : String) (costs : List (String × Rat)) :
    resolve_wildcard_pattern p costs ≠ .error .panicIndexOutOfBounds := by
  unfold resolve_wildcard_pattern get_regex
  by_cases hv : regexValid p = true
  · simp only [hv, if_true]
    by_cases he : (List.map Prod.snd (List.filter (fun kv => wildMatch p kv.1) costs)).isEmpty = true
    · simp [he]
    · simp [eq_false_of_ne_true he]
  · simp [hv]

theorem resolve_value_ne_ok_nil (v : JValue) (sv : List (Int × Rat))
    (costs : List (String × Rat)) : resolve_value v sv costs ≠ .ok [] := by
  cases v with
  | str s =>
    by_cases h1 : strStartsWith s "step__" = true
    · cases hp : parseI32 (strDrop s 6) <;> simp [resolve_value, h1, hp]
    · by_cases h2 : strContainsChar s '*' = true
      · simpa [resolve_value, eq_false_of_ne_true h1, h2] using
          (resolve_wildcard_ne_ok_nil s costs)
      · simp [resolve_value, eq_false_of_ne_true h1, eq_false_of_ne_true h2]
  | num q => simp [resolve_value]
  | bool b => simp [resolve_value]
  | null => simp [resolve_value]
  | other => simp [resolve_value]

theorem resolve_value_ne_panicIndex (v : JValue) (sv : List (Int × Rat))
    (costs : List (String × Rat)) :
    resolve_value v sv costs ≠ .error .panicIndexOutOfBounds := by
  cases v with
  | str s =>
    by_cases h1 : strStartsWith s "step__" = true
    · cases hp : parseI32 (strDrop s 6) <;> simp [resolve_value, h1, hp]
    · by_cases h2 : strContainsChar s '*' = true
      · simpa [resolve_value, eq_false_of_ne_true h1, h2] using
          (resolve_wildcard_ne_panicIndex s costs)
      · simp [resolve_value, eq_false_of_ne_true h1, eq_false_of_ne_true h2]
  | num q => simp [resolve_value]
  | bool b => simp [resolve_value]
  | null => simp [resolve_value]
  | other => simp [resolve_value]

theorem resolve_first_cases (v : JValue) (sv : List (Int × Rat))
    (costs : List (String × Rat)) :
    (∃ x, resolve_first v sv costs = .ok x) ∨
      (∃ e, resolve_first v sv costs = .error e ∧ e ≠ .panicIndexOutOfBounds) := by
  unfold resolve_first
  cases h : resolve_value v sv costs with
  | error e =>
    refine .inr ⟨e, rfl, ?_⟩
    intro he
    exact resolve_value_ne_panicIndex v sv costs (he ▸ h)
  | ok l =>
    cases l with
    | nil => exact absurd h (resolve_value_ne_ok_nil v sv costs)
    | cons x rest => exact .inl ⟨x, rfl⟩

/-- C1: for the worked end-to-end scenario of `examples/main.rs` (material
labels tpa=100/pla=20/resin=0, resin color labels red=30/blue=30, numeric
volume cost 10 and time_taken cost 100; the seven steps Add, Multiply, If,
Percentage, Add, Subtract, Clamp; inputs volume=2, time_taken=1, resin
color=blue), `calculate` returns `Ok` with `final_price = 335`. -/
theorem C1_worked_example_final_price :
    okPrice (calculate exampleNodes exampleStrategy exampleInputs) = some 335 := by
  have hv : validate_required_inputs exampleStrategy exampleInputs = .ok () := rfl
  have hc : calculate_input_costs exampleInputs (index_nodes_by_path exampleNodes).1
      (index_nodes_by_path exampleNodes).2.1 (index_nodes_by_path exampleNodes).2.2 =
      .ok [("/volume", (20:Rat)), ("/time_taken", 100), ("/material/resin/color", 30)] := by
    have h0 : calculate_input_costs exampleInputs (index_nodes_by_path exampleNodes).1
        (index_nodes_by_path exampleNodes).2.1 (index_nodes_by_path exampleNodes).2.2 =
        .ok [("/volume", (2:Rat) * 10), ("/time_taken", (1:Rat) * 100),
             ("/material/resin/color", 30)] := by rfl
    rw [h0]; norm_num
  obtain ⟨e1, h1⟩ := okVal_eq_some (x := process_step (.add 1 (some "Base Cost Calculation")
      [.str "/volume", .str "/time_taken", .str "/material/*/color"]) []
      [("/volume", (20:Rat)), ("/time_taken", 100), ("/material/resin/color", 30)])
      (r := 150) (by
    have hr : resolve_inputs [.str "/volume", .str "/time_taken", .str "/material/*/color"] []
        [("/volume", (20:Rat)), ("/time_taken", 100), ("/material/resin/color", 30)] =
        .ok [20, 100, 30] := by rfl
    simp only [process_step, process_add, hr]
    norm_num [okVal])
  obtain ⟨e2, h2⟩ := okVal_eq_some (x := process_step (.multiply 2 (some "Apply Markup")
      [.num 2, .str "step__1"]) [(1, 150)]
      [("/volume", (20:Rat)), ("/time_taken", 100), ("/material/resin/color", 30)])
      (r := 300) (by
    have hr : resolve_inputs [.num 2, .str "step__1"] [(1, 150)]
        [("/volume", (20:Rat)), ("/time_taken", 100), ("/material/resin/color", 30)] =
        .ok [2, 150] := by rfl
    simp only [process_step, process_multiply, hr]
    norm_num [okVal])
  obtain ⟨e3, h3⟩ := okVal_eq_some (x := process_step (.ifStep 3 (some "Conditional Pricing")
      { left := .str "step__2", operator := ">", right := .num 200 }
      (.str "step__2") (some (.num 0))) [(1, 150), (2, 300)]
      [("/volume", (20:Rat)), ("/time_taken", 100), ("/material/resin/color", 30)])
      (r := 300) (by rfl)
  obtain ⟨e4, h4⟩ := okVal_eq_some (x := process_step (.percentage 4
      (some "Calculate 15 Percent Tax") [.str "step__3", .num 15] none)
      [(1, 150), (2, 300), (3, 300)]
      [("/volume", (20:Rat)), ("/time_taken", 100), ("/material/resin/color", 30)])
      (r := 45) (by
    have hr : resolve_inputs [.str "step__3", .num 15] [(1, 150), (2, 300), (3, 300)]
        [("/volume", (20:Rat)), ("/time_taken", 100), ("/material/resin/color", 30)] =
        .ok [300, 15] := by rfl
    simp only [process_step, process_percentage, percentage_result, hr]
    norm_num [okVal])
  obtain ⟨e5, h5⟩ := okVal_eq_some (x := process_step (.add 5 (some "Total with Tax")
      [.str "step__3", .str "step__4"]) [(1, 150), (2, 300), (3, 300), (4, 45)]
      [("/volume", (20:Rat)), ("/time_taken", 100), ("/material/resin/color", 30)])
      (r := 345) (by
    have hr : resolve_inputs [.str "step__3", .str "step__4"]
        [(1, 150), (2, 300), (3, 300), (4, 45)]
        [("/volume", (20:Rat)), ("/time_taken", 100), ("/material/resin/color", 30)] =
        .ok [300, 45] := by rfl
    simp only [process_step, process_add, hr]
    norm_num [okVal])
  obtain ⟨e6, h6⟩ := okVal_eq_some (x := process_step (.subtract 6 (some "Apply Discount")
      [.str "step__5", .num 10]) [(1, 150), (2, 300), (3, 300), (4, 45), (5, 345)]
      [("/volume", (20:Rat)), ("/time_taken", 100), ("/material/resin/color", 30)])
      (r := 335) (by
    have hr : resolve_inputs [.str "step__5", .num 10]
        [(1, 150), (2, 300), (3, 300), (4, 45), (5, 345)]
        [("/volume", (20:Rat)), ("/time_taken", 100), ("/material/resin/color", 30)] =
        .ok [345, 10] := by rfl
    simp only [process_step, process_subtract, hr]
    norm_num [okVal])
  obtain ⟨e7, h7⟩ := okVal_eq_some (x := process_step (.clamp 7 (some "Clamp Final Price")
      (.str "step__6") (.num 50) (.num 500))
      [(1, 150), (2, 300), (3, 300), (4, 45), (5, 345), (6, 335)]
      [("/volume", (20:Rat)), ("/time_taken", 100), ("/material/resin/color", 30)])
      (r := 335) (by rfl)
  simp only [calculate, hv]
  simp only [calculate_after_validation, hc]
  simp only [exampleStrategy]
  rw [runSteps_cons h1]; norm_num [insertL, Step.id]
  rw [runSteps_cons h2]; norm_num [insertL, Step.id]
  rw [runSteps_cons h3]; norm_num [insertL, Step.id]
  rw [runSteps_cons h4]; norm_num [insertL, Step.id]
  rw [runSteps_cons h5]; norm_num [insertL, Step.id]
  rw [runSteps_cons h6]; norm_num [insertL, Step.id]
  rw [runSteps_cons h7]; norm_num [insertL, Step.id]
  rfl

/-- C3: reference resolution obeys this case analysis: a `step__<id>`
string whose id is absent from the step-value table resolves to the single
value `0.0` with no error; a string containing `*` (that is not a step
reference and whose pattern compiles) resolves to the list of costs of all
cost-table paths the pattern matches, and fails if zero paths match; any
other string is an exact path and, when absent from the cost table,
resolves to the single value `0.0` with no error; a numeric literal
resolves to itself. -/
theorem C3_reference_resolution_cases :
    ∀ (s : String) (sv : List (Int × Rat)) (costs : List (String × Rat)),
    (∀ id, strStartsWith s "step__" = true →
      parseI32 (strDrop s 6) = some id →
      lookupL id sv = none →
      resolve_value (.str s) sv costs = .ok [0]) ∧
    (strStartsWith s "step__" = false → strContainsChar s '*' = true →
      regexValid s = true →
      (((costs.filter (fun kv => wildMatch s kv.1)).map Prod.snd ≠ [] →
        resolve_value (.str s) sv costs =
          .ok ((costs.filter (fun kv => wildMatch s kv.1)).map Prod.snd)) ∧
       ((costs.filter (fun kv => wildMatch s kv.1)).map Prod.snd = [] →
        resolve_value (.str s) sv costs =
          .error (.noWildcardMatch s (costs.map Prod.fst))))) ∧
    (strStartsWith s "step__" = false → strContainsChar s '*' = false →
      lookupL s costs = none →
      resolve_value (.str s) sv costs = .ok [0]) ∧
    (∀ q, resolve_value (.num q) sv costs = .ok [q]) := by
  intro s sv costs
  refine ⟨?_, ?_, ?_, ?_⟩
  · intro id h1 h2 h3
    simp [resolve_value, h1, h2, h3]
  · intro h1 h2 h3
    constructor
    · intro hne
      simp [resolve_value, h1, h2, resolve_wildcard_pattern, get_regex, h3, hne]
    · intro heq
      simp [resolve_value, h1, h2, resolve_wildcard_pattern, get_regex, h3, heq]
  · intro h1 h2 h3
    simp [resolve_value, h1, h2, h3]
  · intro q
    simp [resolve_value]

/-- Witness for C3 at concrete references: a missing step id, a matching
wildcard, a missing exact path, a numeric literal. -/
theorem C3_reference_resolution_cases_witness :
    resolve_value (.str "step__9") [] [] = .ok [0] ∧
    resolve_value (.str "/a/*") [] [("/a/b", (5:Rat))] = .ok [5] ∧
    resolve_value (.str "/x") [] [] = .ok [0] ∧
    resolve_value (.num 2) [] [] = .ok [2] := by
  refine ⟨?_, ?_, ?_, ?_⟩
  · exact (C3_reference_resolution_cases "step__9" [] []).1 9 rfl rfl rfl
  · have h := ((C3_reference_resolution_cases "/a/*" [] [("/a/b", (5:Rat))]).2.1
      rfl rfl rfl).1 (by decide)
    have hl : (([("/a/b", (5:Rat))].filter
        (fun kv => wildMatch "/a/*" kv.1)).map Prod.snd) = [5] := by decide
    rw [hl] at h
    exact h
  · exact (C3_reference_resolution_cases "/x" [] []).2.2.1 rfl rfl rfl
  · exact (C3_reference_resolution_cases "/x" [] []).2.2.2 2

/-- C10: for every reference value, step-value table and cost table,
`resolve_value` either errors or returns a non-empty list (never `ok []`),
and consequently the `[0]` indexing of the resolved list in `process_clamp`
and `process_if` never hits the out-of-bounds panic. -/
theorem C10_resolution_nonempty_no_index_panic :
    ∀ (v : JValue) (sv : List (Int × Rat)) (costs : List (String × Rat)),
    resolve_value v sv costs ≠ .ok [] ∧
    (∀ id name value mn mx,
      process_clamp id name value mn mx sv costs ≠ .error .panicIndexOutOfBounds) ∧
    (∀ id name cond thenV elseV,
      process_if id name cond thenV elseV sv costs ≠ .error .panicIndexOutOfBounds) := by
  intro v sv costs
  refine ⟨resolve_value_ne_ok_nil v sv costs, ?_, ?_⟩
  · intro id name value mn mx
    rcases resolve_first_cases value sv costs with ⟨x, hx⟩ | ⟨ve, hve, hvne⟩
    · rcases resolve_first_cases mn sv costs with ⟨m0, hm⟩ | ⟨me, hme, hmne⟩
      · rcases resolve_first_cases mx sv costs with ⟨x0, hx0⟩ | ⟨xe, hxe, hxne⟩
        · by_cases hc : m0 > x0
          · simp [process_clamp, hx, hm, hx0, hc]
          · simp [process_clamp, hx, hm, hx0, hc]
        · simp [process_clamp, hx, hm, hxe, hxne]
      · simp [process_clamp, hx, hme, hmne]
    · simp [process_clamp, hve, hvne]
  · intro id name cond thenV elseV
    rcases resolve_first_cases cond.left sv costs with ⟨lv, hl⟩ | ⟨le, hle, hlne⟩
    · rcases resolve_first_cases cond.right sv costs with ⟨rv, hr⟩ | ⟨re, hre, hrne⟩
      · cases hop : evalOp cond.operator lv rv with
        | none => simp [process_if, hl, hr, hop]
        | some b =>
          rcases resolve_first_cases thenV sv costs with ⟨tv, ht⟩ | ⟨te, hte, htne⟩
          · cases elseV with
            | none => simp [process_if, hl, hr, hop, ht]
            | some ev =>
              rcases resolve_first_cases ev sv costs with ⟨evv, hev⟩ | ⟨ee, hee, hene⟩
              · simp [process_if, hl, hr, hop, ht, hev]
              · simp [process_if, hl, hr, hop, ht, hee, hene]
          · simp [process_if, hl, hr, hop, hte, htne]
      · simp [process_if, hl, hre, hrne]
    · simp [process_if, hle, hlne]

theorem lookupL_mem {κ α : Type} [DecidableEq κ] {k : κ} {v : α} :
    ∀ {l : List (κ × α)}, lookupL k l = some v → (k, v) ∈ l := by
  intro l
  induction l with
  | nil => intro h; simp [lookupL] at h
  | cons e rest ih =>
    intro h
    by_cases he : e.1 = k
    · simp only [lookupL, he, if_true, Option.some.injEq] at h
      have he2 : (k, v) = e := by
        cases e
        simp_all
      rw [he2]
      exact List.mem_cons_self _ _
    · simp only [lookupL, he, if_false] at h
      exact .tail _ (ih h)

theorem lookupL_append_left {κ α : Type} [DecidableEq κ] {k : κ} {v : α} :
    ∀ {l l2 : List (κ × α)}, lookupL k l = some v → lookupL k (l ++ l2) = some v := by
  intro l l2
  induction l with
  | nil => intro h; simp [lookupL] at h
  | cons e rest ih =>
    intro h
    by_cases he : e.1 = k
    · simp only [lookupL, he, if_true] at h ⊢
      exact h
    · simp only [lookupL, he, if_false] at h ⊢
      exact ih h

theorem lookupL_append_none {κ α : Type} [DecidableEq κ] {k : κ} :
    ∀ {l l2 : List (κ × α)}, lookupL k l = none →
      lookupL k (l ++ l2) = lookupL k l2 := by
  intro l l2
  induction l with
  | nil => intro _; rfl
  | cons e rest ih =>
    intro h
    by_cases he : e.1 = k
    · simp [lookupL, he] at h
    · simp only [lookupL, he, if_false] at h ⊢
      exact ih h

theorem insertL_fresh {κ α : Type} [DecidableEq κ] {k : κ} {v : α} :
    ∀ {l : List (κ × α)}, lookupL k l = none → insertL k v l = l ++ [(k, v)] := by
  intro l
  induction l with
  | nil => intro _; rfl
  | cons e rest ih =>
    intro h
    by_cases he : e.1 = k
    · simp [lookupL, he] at h
    · simp only [lookupL, he, if_false] at h
      simp only [insertL, he, if_false, List.cons_append]
      rw [ih h]

theorem mem_insertL {κ α : Type} [DecidableEq κ] {k : κ} {v : α} {e : κ × α} :
    ∀ {l : List (κ × α)}, e ∈ insertL k v l → e = (k, v) ∨ e ∈ l := by
  intro l
  induction l with
  | nil => intro h; simp [insertL] at h; exact .inl h
  | cons e' rest ih =>
    intro h
    by_cases he : e'.1 = k
    · simp only [insertL, he, if_true] at h
      rcases List.mem_cons.mp h with h1 | h2
      · exact .inl h1
      · exact .inr (.tail _ h2)
    · simp only [insertL, he, if_false] at h
      rcases List.mem_cons.mp h with h1 | h2
      · exact .inr (h1 ▸ List.mem_cons_self _ _)
      · rcases ih h2 with h3 | h4
        · exact .inl h3
        · exact .inr (.tail _ h4)

theorem index_loop_lbl_inv :
    ∀ (nodes : List PricingNode)
      (acc : List (String × List PricingNode) ×
        List ((String × String) × PricingNode) × List (String × PricingNode)),
    (∀ e ∈ acc.2.1, e.2.node_type ≠ "numeric") →
    ∀ e ∈ (index_loop nodes acc).2.1, e.2.node_type ≠ "numeric" := by
  intro nodes
  induction nodes with
  | nil => intro acc hinv; exact hinv
  | cons node rest ih =>
    rintro ⟨byp, lbl, num⟩ hinv
    by_cases hn : node.node_type = "numeric"
    · simp only [index_loop, hn, if_true]
      exact ih _ hinv
    · simp only [index_loop, hn, if_false]
      cases hv : node.value with
      | some v =>
        refine ih _ ?_
        intro e he
        rcases mem_insertL he with h1 | h2
        · rw [h1]; exact hn
        · exact hinv e h2
      | none => exact ih _ hinv

theorem index_loop_num_inv :
    ∀ (nodes : List PricingNode)
      (acc : List (String × List PricingNode) ×
        List ((String × String) × PricingNode) × List (String × PricingNode)),
    (∀ e ∈ acc.2.2, e.2.node_type = "numeric") →
    ∀ e ∈ (index_loop nodes acc).2.2, e.2.node_type = "numeric" := by
  intro nodes
  induction nodes with
  | nil => intro acc hinv; exact hinv
  | cons node rest ih =>
    rintro ⟨byp, lbl, num⟩ hinv
    by_cases hn : node.node_type = "numeric"
    · simp only [index_loop, hn, if_true]
      refine ih _ ?_
      intro e he
      rcases mem_insertL he with h1 | h2
      · rw [h1]; exact hn
      · exact hinv e h2
    · simp only [index_loop, hn, if_false]
      cases hv : node.value with
      | some v => exact ih _ hinv
      | none => exact ih _ hinv

theorem costsLoop_extends {byp : List (String × List PricingNode)}
    {lbl : List ((String × String) × PricingNode)}
    {num : List (String × PricingNode)} :
    ∀ (inputs : List Input) (acc table : List (String × Rat)),
    costsLoop byp lbl num inputs acc = .ok table →
    ∀ k v, lookupL k acc = some v → lookupL k table = some v := by
  intro inputs
  induction inputs with
  | nil =>
    intro acc table h k v hk
    simp only [costsLoop, Except.ok.injEq] at h
    rw [← h]
    exact hk
  | cons inp rest ih =>
    intro acc table h k v hk
    by_cases hdup : (lookupL inp.path acc).isSome = true
    · simp [costsLoop, hdup] at h
    · have hnone : lookupL inp.path acc = none := by
        cases hacc : lookupL inp.path acc
        · rfl
        · simp [hacc] at hdup
      have hkp : ∀ c : Rat, lookupL k (insertL inp.path c acc) = some v := by
        intro c
        rw [insertL_fresh hnone]
        exact lookupL_append_left hk
      simp only [costsLoop, hdup, Bool.false_eq_true, if_false] at h
      cases hlbl : lookupL (inp.path, stringify_input_value inp.value) lbl with
      | some node =>
        simp only [hlbl] at h
        by_cases hnt : node.node_type = "numeric"
        · simp only [hnt, if_true] at h
          cases hf : asF64 inp.value with
          | some vnum =>
            simp only [hf] at h
            exact ih _ _ h k v (hkp _)
          | none => simp [hf] at h
        · simp only [hnt, if_false] at h
          exact ih _ _ h k v (hkp _)
      | none =>
        simp only [hlbl] at h
        cases hnum : lookupL inp.path num with
        | some node =>
          simp only [hnum] at h
          by_cases hnt : node.node_type = "numeric"
          · simp only [hnt, if_true] at h
            cases hf : asF64 inp.value with
            | some vnum =>
              simp only [hf] at h
              exact ih _ _ h k v (hkp _)
            | none => simp [hf] at h
          · simp only [hnt, if_false] at h
            exact ih _ _ h k v (hkp _)
        | none =>
          simp only [hnum] at h
          by_cases hbp : (lookupL inp.path byp).isSome = true <;> simp [hbp] at h

theorem costsLoop_spec {byp : List (String × List PricingNode)}
    {lbl : List ((String × String) × PricingNode)}
    {num : List (String × PricingNode)}
    (hlblInv : ∀ e ∈ lbl, e.2.node_type ≠ "numeric")
    (hnumInv : ∀ e ∈ num, e.2.node_type = "numeric") :
    ∀ (inputs : List Input) (acc table : List (String × Rat)),
    costsLoop byp lbl num inputs acc = .ok table →
    ∀ inp ∈ inputs,
      (∀ node, lookupL (inp.path, stringify_input_value inp.value) lbl = some node →
        lookupL inp.path table = some node.cost) ∧
      (∀ node v, (∀ e ∈ lbl, e.1.1 ≠ inp.path) →
        lookupL inp.path num = some node →
        asF64 inp.value = some v →
        lookupL inp.path table = some (v * node.cost)) := by
  intro inputs
  induction inputs with
  | nil =>
    intro acc table h inp hmem
    simp at hmem
  | cons inp0 rest ih =>
    intro acc table h inp hmem
    by_cases hdup : (lookupL inp0.path acc).isSome = true
    · simp [costsLoop, hdup] at h
    · have hnone : lookupL inp0.path acc = none := by
        cases hacc : lookupL inp0.path acc
        · rfl
        · simp [hacc] at hdup
      have hacc' : ∀ c : Rat, lookupL inp0.path (insertL inp0.path c acc) = some c := by
        intro c
        rw [insertL_fresh hnone, lookupL_append_none hnone]
        simp [lookupL]
      simp only [costsLoop, hdup, Bool.false_eq_true, if_false] at h
      cases hlbl : lookupL (inp0.path, stringify_input_value inp0.value) lbl with
      | some node =>
        have hnt : node.node_type ≠ "numeric" := hlblInv _ (lookupL_mem hlbl)
        simp only [hlbl, if_neg hnt] at h
        rcases List.mem_cons.mp hmem with heq | hrest
        · subst heq
          constructor
          · intro node' hnode'
            rw [hlbl] at hnode'
            injection hnode' with hh
            subst hh
            exact costsLoop_extends rest _ table h _ _ (hacc' _)
          · intro node' v hnolbl hnum hv
            exact absurd rfl (hnolbl _ (lookupL_mem hlbl))
        · exact ih _ _ h inp hrest
      | none =>
        simp only [hlbl] at h
        cases hnum0 : lookupL inp0.path num with
        | some node =>
          have hnt : node.node_type = "numeric" := hnumInv _ (lookupL_mem hnum0)
          simp only [hnum0] at h
          rw [if_pos hnt] at h
          cases hf : asF64 inp0.value with
          | some vnum =>
            simp only [hf] at h
            rcases List.mem_cons.mp hmem with heq | hrest
            · subst heq
              constructor
              · intro node' hnode'
                rw [hlbl] at hnode'
                simp at hnode'
              · intro node' v hnolbl hnum' hv
                rw [hnum0] at hnum'
                injection hnum' with hh
                subst hh
                rw [hf] at hv
                injection hv with hv2
                subst hv2
                exact costsLoop_extends rest _ table h _ _ (hacc' _)
            · exact ih _ _ h inp hrest
          | none => simp [hf] at h
        | none =>
          simp only [hnum0] at h
          by_cases hbp : (lookupL inp0.path byp).isSome = true <;> simp [hbp] at h

/-- C2: for every input whose `(path, stringified value)` matches a label
node with cost `c`, the contributed cost in the per-path cost table is
exactly `c` (with no assumption on numeric nodes at the same path: the
label lookup is tried first, so a label match wins even when a numeric node
coexists); for every input whose path has no label node but has a numeric
node with cost `c` and a numeric input value `v`, the contributed cost is
`v * c`. -/
theorem C2_input_cost_correctness :
    ∀ (nodes : List PricingNode) (inputs : List Input) (table : List (String × Rat)),
    calculate_input_costs inputs (index_nodes_by_path nodes).1
      (index_nodes_by_path nodes).2.1 (index_nodes_by_path nodes).2.2 = .ok table →
    ∀ inp ∈ inputs,
      (∀ node, lookupL (inp.path, stringify_input_value inp.value)
          (index_nodes_by_path nodes).2.1 = some node →
        lookupL inp.path table = some node.cost) ∧
      (∀ node v, (∀ e ∈ (index_nodes_by_path nodes).2.1, e.1.1 ≠ inp.path) →
        lookupL inp.path (index_nodes_by_path nodes).2.2 = some node →
        asF64 inp.value = some v →
        lookupL inp.path table = some (v * node.cost)) := by
  intro nodes inputs table h
  have h1 := index_loop_lbl_inv nodes ([], [], []) (by simp)
  have h2 := index_loop_num_inv nodes ([], [], []) (by simp)
  exact costsLoop_spec h1 h2 inputs [] table h

/-- Witness for C2: a label node at path `/m` (cost 30, value blue) and a
numeric node at `/v` (cost 10) with input value 2 produce the table
entries 30 and 2 * 10. -/
theorem C2_input_cost_correctness_witness :
    lookupL "/m" [("/m", (30:Rat)), ("/v", (2:Rat) * 10)] = some 30 ∧
    lookupL "/v" [("/m", (30:Rat)), ("/v", (2:Rat) * 10)] = some ((2:Rat) * 10) := by
  have hok : calculate_input_costs
      [⟨"/m", .str "blue"⟩, ⟨"/v", .num 2⟩]
      (index_nodes_by_path [⟨"/m", "label", 30, some (.str "blue")⟩,
        ⟨"/v", "numeric", 10, none⟩]).1
      (index_nodes_by_path [⟨"/m", "label", 30, some (.str "blue")⟩,
        ⟨"/v", "numeric", 10, none⟩]).2.1
      (index_nodes_by_path [⟨"/m", "label", 30, some (.str "blue")⟩,
        ⟨"/v", "numeric", 10, none⟩]).2.2 =
      .ok [("/m", (30:Rat)), ("/v", (2:Rat) * 10)] := by rfl
  have hmain := C2_input_cost_correctness _ _ _ hok
  constructor
  · exact (hmain ⟨"/m", .str "blue"⟩ (by decide)).1 _ rfl
  · exact (hmain ⟨"/v", .num 2⟩ (by decide)).2 ⟨"/v", "numeric", 10, none⟩ 2
      (by decide) rfl rfl

theorem divideLoop_error_iff (nm : String) :
    ∀ (ds : List Rat) (a : Rat),
    (∃ e, divideLoop nm a ds = .error e) ↔ ∃ d ∈ ds, d = 0 := by
  intro ds
  induction ds with
  | nil => intro a; simp [divideLoop]
  | cons d rest ih =>
    intro a
    by_cases hd : d = 0
    · simp [divideLoop, hd]
    · simp [divideLoop, hd, ih, List.exists_mem_cons_iff]
      intro h0
      exact absurd h0.symm hd

theorem divideLoop_ok_val (nm : String) :
    ∀ (ds : List Rat) (a r : Rat),
    divideLoop nm a ds = .ok r → r = ds.foldl (· / ·) a := by
  intro ds
  induction ds with
  | nil => intro a r h; simp [divideLoop] at h; simp [h.symm]
  | cons d rest ih =>
    intro a r h
    by_cases hd : d = 0
    · simp [divideLoop, hd] at h
    · simp only [divideLoop, hd, if_false, List.foldl_cons] at h ⊢
      simpa using ih (a / d) r h

/-- C4: an Add, Subtract, Multiply, Min or Max step fails exactly when its
resolved input list is empty; a Divide step fails exactly when it has fewer
than two resolved inputs or any divisor (input after the first) equals
zero, and otherwise returns the first value divided successively by each
remaining value. -/
theorem C4_operator_arity :
    ∀ (id : Int) (name : Option String) (inputs : List JValue)
      (sv : List (Int × Rat)) (costs : List (String × Rat)) (l : List Rat),
    resolve_inputs inputs sv costs = .ok l →
    ((∃ e, process_add id name inputs sv costs = .error e) ↔ l = []) ∧
    ((∃ e, process_subtract id name inputs sv costs = .error e) ↔ l = []) ∧
    ((∃ e, process_multiply id name inputs sv costs = .error e) ↔ l = []) ∧
    ((∃ e, process_min id name inputs sv costs = .error e) ↔ l = []) ∧
    ((∃ e, process_max id name inputs sv costs = .error e) ↔ l = []) ∧
    ((∃ e, process_divide id name inputs sv costs = .error e) ↔
      (l.length < 2 ∨ ∃ d ∈ l.tail, d = 0)) ∧
    (∀ r b, process_divide id name inputs sv costs = .ok (r, b) →
      r = l.tail.foldl (· / ·) (l.headD 0)) := by
  intro id name inputs sv costs l h
  refine ⟨?_, ?_, ?_, ?_, ?_, ?_, ?_⟩
  · cases l <;> simp [process_add, h]
  · cases l <;> simp [process_subtract, h]
  · cases l <;> simp [process_multiply, h]
  · cases l <;> simp [process_min, h]
  · cases l <;> simp [process_max, h]
  · match l with
    | [] => simp [process_divide, h]
    | [a] => simp [process_divide, h]
    | a :: b :: rest =>
      cases hdl : divideLoop (step_display_name id name) a (b :: rest) with
      | error e =>
        simp only [process_divide, h, hdl]
        constructor
        · intro _
          exact .inr (by
            simpa using (divideLoop_error_iff (step_display_name id name)
              (b :: rest) a).mp ⟨e, hdl⟩)
        · intro _
          exact ⟨e, rfl⟩
      | ok r =>
        simp only [process_divide, h, hdl]
        constructor
        · rintro ⟨e, he⟩
          simp at he
        · rintro (hlen | hz)
          · simp only [List.length_cons] at hlen
            exact absurd hlen (by omega)
          · obtain ⟨e', he'⟩ := (divideLoop_error_iff (step_display_name id name)
              (b :: rest) a).mpr (by simpa using hz)
            rw [hdl] at he'
            exact absurd he' (by simp)
  · intro r b hok
    match l with
    | [] => simp [process_divide, h] at hok
    | [a] => simp [process_divide, h] at hok
    | a :: c :: rest =>
      cases hdl : divideLoop (step_display_name id name) a (c :: rest) with
      | error e => simp [process_divide, h, hdl] at hok
      | ok r2 =>
        simp only [process_divide, h, hdl, Except.ok.injEq, Prod.mk.injEq] at hok
        have := divideLoop_ok_val (step_display_name id name) (c :: rest) a r2 hdl
        simp only [List.tail_cons, List.headD_cons]
        rw [← hok.1, this]

/-- Witness for C4: Add with an empty input list errors, Divide by a zero
divisor errors. -/
theorem C4_operator_arity_witness :
    (∃ e, process_add 1 none [] [] [] = .error e) ∧
    (∃ e, process_divide 2 none [.num 10, .num 0] [] [] = .error e) := by
  constructor
  · exact ((C4_operator_arity 1 none [] [] [] [] rfl).1).mpr rfl
  · exact ((C4_operator_arity 2 none [.num 10, .num 0] [] [] [10, 0]
      rfl).2.2.2.2.2.1).mpr (.inr ⟨0, by decide, rfl⟩)

/-- C5: for every Clamp step with resolved value, min and max: if
`min > max` the step fails; if `min ≤ max` the result lies in `[min, max]`,
equals `min` when `value < min`, equals `max` when `value > max`, and
equals `value` when `value` is already in `[min, max]`. -/
theorem C5_clamp_invariant :
    ∀ (id : Int) (name : Option String) (value mn mx : JValue)
      (sv : List (Int × Rat)) (costs : List (String × Rat))
      (v vt m0 mt x0 xt),
    resolve_value value sv costs = .ok (v :: vt) →
    resolve_value mn sv costs = .ok (m0 :: mt) →
    resolve_value mx sv costs = .ok (x0 :: xt) →
    ((m0 > x0 → process_clamp id name value mn mx sv costs =
        .error (.clampMinGtMax (step_display_name id name) m0 x0)) ∧
     (m0 ≤ x0 → ∃ b, process_clamp id name value mn mx sv costs =
        .ok (min (max v m0) x0, b) ∧
        m0 ≤ min (max v m0) x0 ∧ min (max v m0) x0 ≤ x0 ∧
        (v < m0 → min (max v m0) x0 = m0) ∧
        (v > x0 → min (max v m0) x0 = x0) ∧
        (m0 ≤ v → v ≤ x0 → min (max v m0) x0 = v))) := by
  intro id name value mn mx sv costs v vt m0 mt x0 xt h1 h2 h3
  have hf1 : resolve_first value sv costs = .ok v := by
    simp [resolve_first, h1, firstOrPanic]
  have hf2 : resolve_first mn sv costs = .ok m0 := by
    simp [resolve_first, h2, firstOrPanic]
  have hf3 : resolve_first mx sv costs = .ok x0 := by
    simp [resolve_first, h3, firstOrPanic]
  constructor
  · intro hgt
    simp [process_clamp, hf1, hf2, hf3, hgt]
  · intro hle
    have hok : ∃ b, process_clamp id name value mn mx sv costs =
        .ok (min (max v m0) x0, b) := by
      simp only [process_clamp, hf1, hf2, hf3]
      rw [if_neg (not_lt.mpr hle)]
      exact ⟨_, rfl⟩
    obtain ⟨b, hb⟩ := hok
    refine ⟨b, hb, le_min (le_max_right v m0) hle, min_le_right _ _, ?_, ?_, ?_⟩
    · intro hv
      rw [max_eq_right (le_of_lt hv), min_eq_left hle]
    · intro hv
      rw [max_eq_left (le_trans hle (le_of_lt hv)), min_eq_right (le_of_lt hv)]
    · intro hmv hvx
      rw [max_eq_left hmv, min_eq_left hvx]

/-- Witness for C5: clamp(335, 50, 500) succeeds with result 335. -/
theorem C5_clamp_invariant_witness :
    ∃ b, process_clamp 7 none (.num 335) (.num 50) (.num 500) [] [] =
      .ok (335, b) := by
  obtain ⟨b, hb, _, _, _, _, _⟩ :=
    (C5_clamp_invariant 7 none (.num 335) (.num 50) (.num 500) [] [] 335 [] 50 []
      500 [] rfl rfl rfl).2 (by decide)
  have hmin : min (max (335:Rat) 50) 500 = 335 := by decide
  rw [hmin] at hb
  exact ⟨b, hb⟩

/-- C9: an If step resolves both its then reference and its else reference
regardless of the condition's truth value, so a resolution failure in the
branch that is not selected (for example a wildcard matching no cost-table
path in the else reference while the condition is true) still aborts the
step with that error. -/
theorem C9_if_resolves_both_branches :
    ∀ (id : Int) (name : Option String) (cond : Condition)
      (thenV ev : JValue) (elseOpt : Option JValue)
      (sv : List (Int × Rat)) (costs : List (String × Rat))
      (l0 lt r0 rt) (err : RErr),
    resolve_value cond.left sv costs = .ok (l0 :: lt) →
    resolve_value cond.right sv costs = .ok (r0 :: rt) →
    ((∀ t0 tt, evalOp cond.operator l0 r0 = some true →
       resolve_value thenV sv costs = .ok (t0 :: tt) →
       resolve_value ev sv costs = .error err →
       process_if id name cond thenV (some ev) sv costs = .error err) ∧
     (evalOp cond.operator l0 r0 = some false →
       resolve_value thenV sv costs = .error err →
       process_if id name cond thenV elseOpt sv costs = .error err)) := by
  intro id name cond thenV ev elseOpt sv costs l0 lt r0 rt err h1 h2
  have hf1 : resolve_first cond.left sv costs = .ok l0 := by
    simp [resolve_first, h1, firstOrPanic]
  have hf2 : resolve_first cond.right sv costs = .ok r0 := by
    simp [resolve_first, h2, firstOrPanic]
  constructor
  · intro t0 tt hop ht he
    have hft : resolve_first thenV sv costs = .ok t0 := by
      simp [resolve_first, ht, firstOrPanic]
    have hfe : resolve_first ev sv costs = .error err := by
      simp [resolve_first, he]
    simp [process_if, hf1, hf2, hop, hft, hfe]
  · intro hop ht
    have hft : resolve_first thenV sv costs = .error err := by
      simp [resolve_first, ht]
    simp [process_if, hf1, hf2, hop, hft]

/-- Witness for C9: a true condition with a failing else reference, and a
false condition with a failing then reference, both abort. -/
theorem C9_if_resolves_both_branches_witness :
    process_if 3 none ⟨.num 1, ">", .num 0⟩ (.num 5) (some (.str "/z*")) [] [] =
      .error (.noWildcardMatch "/z*" []) ∧
    process_if 4 none ⟨.num 0, ">", .num 1⟩ (.str "/z*") none [] [] =
      .error (.noWildcardMatch "/z*" []) := by
  constructor
  · exact (C9_if_resolves_both_branches 3 none ⟨.num 1, ">", .num 0⟩ (.num 5)
      (.str "/z*") none [] [] 1 [] 0 [] (.noWildcardMatch "/z*" []) rfl rfl).1
      5 [] rfl rfl rfl
  · exact (C9_if_resolves_both_branches 4 none ⟨.num 0, ">", .num 1⟩ (.str "/z*")
      (.num 0) none [] [] 0 [] 1 [] (.noWildcardMatch "/z*" []) rfl rfl).2 rfl rfl

/-- Witness for C10 at concrete inputs. -/
theorem C10_resolution_nonempty_no_index_panic_witness :
    resolve_value (.num 1) [] [] ≠ .ok [] ∧
    process_clamp 1 none (.num 3) (.num 1) (.num 5) [] [] ≠
      .error .panicIndexOutOfBounds ∧
    process_if 1 none ⟨.num 1, ">", .num 0⟩ (.num 2) none [] [] ≠
      .error .panicIndexOutOfBounds := by
  exact ⟨(C10_resolution_nonempty_no_index_panic (.num 1) [] []).1,
    (C10_resolution_nonempty_no_index_panic (.num 1) [] []).2.1 1 none
      (.num 3) (.num 1) (.num 5),
    (C10_resolution_nonempty_no_index_panic (.num 1) [] []).2.2 1 none
      ⟨.num 1, ">", .num 0⟩ (.num 2) none⟩

theorem validateLoop_err :
    ∀ (pats : List String) (paths : List String),
    (∀ p ∈ pats, regexValid p = true) →
    (∃ p ∈ pats, ∀ path ∈ paths, wildMatch p path = false) →
    ∃ p, validateLoop paths pats = .error (.missingRequiredInput p paths) := by
  intro pats
  induction pats with
  | nil =>
    intro paths _ h
    simp at h
  | cons pat rest ih =>
    intro paths hvalid h
    have hreg : get_regex pat = .ok (fun path => wildMatch pat path) := by
      simp [get_regex, hvalid pat (List.mem_cons_self _ _)]
    by_cases hm : paths.any (fun path => wildMatch pat path) = true
    · rcases h with ⟨p, hp, hnm⟩
      rcases List.mem_cons.mp hp with rfl | hprest
      · exfalso
        rcases List.any_eq_true.mp hm with ⟨path, hpath, hmatch⟩
        rw [hnm path hpath] at hmatch
        exact Bool.false_ne_true hmatch
      · obtain ⟨p', hp'⟩ := ih paths (fun q hq => hvalid q (.tail _ hq)) ⟨p, hprest, hnm⟩
        refine ⟨p', ?_⟩
        simp only [validateLoop, hreg, hm, if_true]
        exact hp'
    · refine ⟨pat, ?_⟩
      simp only [validateLoop, hreg, hm, Bool.false_eq_true, if_false]

theorem validateLoop_ok :
    ∀ (pats : List String) (paths : List String),
    (∀ p ∈ pats, regexValid p = true) →
    (∀ p ∈ pats, ∃ path ∈ paths, wildMatch p path = true) →
    validateLoop paths pats = .ok () := by
  intro pats
  induction pats with
  | nil => intro paths _ _; rfl
  | cons pat rest ih =>
    intro paths hvalid h
    have hreg : get_regex pat = .ok (fun path => wildMatch pat path) := by
      simp [get_regex, hvalid pat (List.mem_cons_self _ _)]
    have hm : paths.any (fun path => wildMatch pat path) = true := by
      rcases h pat (List.mem_cons_self _ _) with ⟨path, hpath, hmatch⟩
      exact List.any_eq_true.mpr ⟨path, hpath, hmatch⟩
    simp only [validateLoop, hreg, hm, if_true]
    exact ih paths (fun q hq => hvalid q (.tail _ hq)) (fun q hq => h q (.tail _ hq))

/-- C6: if the strategy's `required_inputs` list contains a (compiling)
pattern matched by no provided input path, `calculate` returns the
missing-required-input error — for every node catalog, so before any input
cost is resolved and before any step executes; when every required pattern
is matched by at least one input path, validation passes and the
calculation proceeds past the gate. -/
theorem C6_required_input_gate :
    ∀ (nodes : List PricingNode) (strat : PricingStrategy) (inputs : List Input)
      (pats : List String),
    strat.required_inputs = some pats →
    (∀ p ∈ pats, regexValid p = true) →
    (((∃ p ∈ pats, ∀ inp ∈ inputs, wildMatch p inp.path = false) →
      ∃ p, calculate nodes strat inputs =
        .error (.missingRequiredInput p (inputs.map Input.path))) ∧
     ((∀ p ∈ pats, ∃ inp ∈ inputs, wildMatch p inp.path = true) →
      validate_required_inputs strat inputs = .ok () ∧
      calculate nodes strat inputs = calculate_after_validation nodes strat inputs)) := by
  intro nodes strat inputs pats hreq hvalid
  constructor
  · rintro ⟨p, hp, hnm⟩
    have hpaths : ∀ path ∈ inputs.map Input.path, wildMatch p path = false := by
      intro path hpath
      rcases List.mem_map.mp hpath with ⟨inp, hinp, rfl⟩
      exact hnm inp hinp
    obtain ⟨p', hp'⟩ := validateLoop_err pats (inputs.map Input.path) hvalid ⟨p, hp, hpaths⟩
    have hval : validate_required_inputs strat inputs =
        .error (.missingRequiredInput p' (inputs.map Input.path)) := by
      simp only [validate_required_inputs, hreq]
      exact hp'
    exact ⟨p', by simp [calculate, hval]⟩
  · intro h
    have hval : validate_required_inputs strat inputs = .ok () := by
      have hh : ∀ p ∈ pats, ∃ path ∈ inputs.map Input.path, wildMatch p path = true := by
        intro p hp
        rcases h p hp with ⟨inp, hinp, hm⟩
        exact ⟨inp.path, List.mem_map_of_mem Input.path hinp, hm⟩
      simp only [validate_required_inputs, hreq]
      exact validateLoop_ok pats _ hvalid hh
    exact ⟨hval, by simp [calculate, hval]⟩

/-- Witness for C6: an unmatched required pattern fails the calculation, a
matched one lets it proceed. -/
theorem C6_required_input_gate_witness :
    (∃ p, calculate [] ⟨1, some ["/a"], []⟩ [] =
      .error (.missingRequiredInput p [])) ∧
    calculate [] ⟨1, some ["/v"], []⟩ [⟨"/v", .num 1⟩] =
      calculate_after_validation [] ⟨1, some ["/v"], []⟩ [⟨"/v", .num 1⟩] := by
  constructor
  · have h := (C6_required_input_gate [] ⟨1, some ["/a"], []⟩ [] ["/a"] rfl
      (by decide)).1 ⟨"/a", List.mem_cons_self _ _, by simp⟩
    simpa using h
  · exact ((C6_required_input_gate [] ⟨1, some ["/v"], []⟩ [⟨"/v", .num 1⟩]
      ["/v"] rfl (by decide)).2 (by decide)).2

theorem costsLoop_cons_ok_inv {byp : List (String × List PricingNode)}
    {lbl : List ((String × String) × PricingNode)}
    {num : List (String × PricingNode)} {inp : Input} {rest : List Input}
    {acc table : List (String × Rat)}
    (h : costsLoop byp lbl num (inp :: rest) acc = .ok table) :
    lookupL inp.path acc = none ∧
      ∃ c, costsLoop byp lbl num rest (insertL inp.path c acc) = .ok table := by
  by_cases hdup : (lookupL inp.path acc).isSome = true
  · simp [costsLoop, hdup] at h
  · have hnone : lookupL inp.path acc = none := by
      cases hacc : lookupL inp.path acc
      · rfl
      · simp [hacc] at hdup
    refine ⟨hnone, ?_⟩
    simp only [costsLoop, hdup, Bool.false_eq_true, if_false] at h
    cases hlbl : lookupL (inp.path, stringify_input_value inp.value) lbl with
    | some node =>
      simp only [hlbl] at h
      by_cases hnt : node.node_type = "numeric"
      · simp only [hnt, if_true] at h
        cases hf : asF64 inp.value with
        | some vnum => simp only [hf] at h; exact ⟨_, h⟩
        | none => simp [hf] at h
      · simp only [hnt, if_false] at h
        exact ⟨_, h⟩
    | none =>
      simp only [hlbl] at h
      cases hnum : lookupL inp.path num with
      | some node =>
        simp only [hnum] at h
        by_cases hnt : node.node_type = "numeric"
        · simp only [hnt, if_true] at h
          cases hf : asF64 inp.value with
          | some vnum => simp only [hf] at h; exact ⟨_, h⟩
          | none => simp [hf] at h
        · simp only [hnt, if_false] at h
          exact ⟨_, h⟩
      | none =>
        simp only [hnum] at h
        by_cases hbp : (lookupL inp.path byp).isSome = true <;> simp [hbp] at h

theorem costsLoop_cons_step {byp : List (String × List PricingNode)}
    {lbl : List ((String × String) × PricingNode)}
    {num : List (String × PricingNode)} {inp : Input} (rest : List Input)
    {acc : List (String × Rat)}
    (hnone : lookupL inp.path acc = none)
    (hres : input_resolves lbl num inp = true) :
    ∃ c, costsLoop byp lbl num (inp :: rest) acc =
      costsLoop byp lbl num rest (insertL inp.path c acc) := by
  have hdup : (lookupL inp.path acc).isSome = false := by simp [hnone]
  cases hlbl : lookupL (inp.path, stringify_input_value inp.value) lbl with
  | some node =>
    have hacc : node_accepts node inp.value = true := by
      simpa [input_resolves, hlbl] using hres
    by_cases hnt : node.node_type = "numeric"
    · have hf : (asF64 inp.value).isSome = true := by
        simpa [node_accepts, hnt] using hacc
      cases hfv : asF64 inp.value with
      | some vnum =>
        exact ⟨vnum * node.cost, by
          simp only [costsLoop, hdup, Bool.false_eq_true, if_false, hlbl, hnt,
            if_true, hfv]⟩
      | none => simp [hfv] at hf
    · exact ⟨node.cost, by
        simp only [costsLoop, hdup, Bool.false_eq_true, if_false, hlbl,
          if_neg hnt]⟩
  | none =>
    cases hnum : lookupL inp.path num with
    | some node =>
      have hacc : node_accepts node inp.value = true := by
        simpa [input_resolves, hlbl, hnum] using hres
      by_cases hnt : node.node_type = "numeric"
      · have hf : (asF64 inp.value).isSome = true := by
          simpa [node_accepts, hnt] using hacc
        cases hfv : asF64 inp.value with
        | some vnum =>
          exact ⟨vnum * node.cost, by
            simp only [costsLoop, hdup, Bool.false_eq_true, if_false, hlbl, hnum,
              hnt, if_true, hfv]⟩
        | none => simp [hfv] at hf
      · exact ⟨node.cost, by
          simp only [costsLoop, hdup, Bool.false_eq_true, if_false, hlbl, hnum,
            if_neg hnt]⟩
    | none => simp [input_resolves, hlbl, hnum] at hres

theorem costsLoop_ok_paths {byp : List (String × List PricingNode)}
    {lbl : List ((String × String) × PricingNode)}
    {num : List (String × PricingNode)} :
    ∀ (inputs : List Input) (acc table : List (String × Rat)),
    costsLoop byp lbl num inputs acc = .ok table →
    (inputs.map Input.path).Nodup ∧ ∀ inp ∈ inputs, lookupL inp.path acc = none := by
  intro inputs
  induction inputs with
  | nil => intro acc table _; exact ⟨List.nodup_nil, by simp⟩
  | cons inp rest ih =>
    intro acc table h
    obtain ⟨hnone, c, hrec⟩ := costsLoop_cons_ok_inv h
    obtain ⟨hnodup, hacc'⟩ := ih _ _ hrec
    have hself : lookupL inp.path (insertL inp.path c acc) = some c := by
      rw [insertL_fresh hnone, lookupL_append_none hnone]
      simp [lookupL]
    have hrest_ne : ∀ inp' ∈ rest, inp'.path ≠ inp.path := by
      intro inp' hinp' heq
      have := hacc' inp' hinp'
      rw [heq, hself] at this
      exact Option.noConfusion this
    have hrest_acc : ∀ inp' ∈ rest, lookupL inp'.path acc = none := by
      intro inp' hinp'
      cases hx : lookupL inp'.path acc with
      | none => rfl
      | some v =>
        have h1 : lookupL inp'.path (insertL inp.path c acc) = some v := by
          rw [insertL_fresh hnone]
          exact lookupL_append_left hx
        rw [hacc' inp' hinp'] at h1
        exact Option.noConfusion h1
    refine ⟨List.nodup_cons.mpr ⟨?_, hnodup⟩, ?_⟩
    · intro hmem
      rcases List.mem_map.mp hmem with ⟨inp', hinp', heq⟩
      exact hrest_ne inp' hinp' heq
    · intro inp' hinp'
      rcases List.mem_cons.mp hinp' with rfl | hr
      · exact hnone
      · exact hrest_acc inp' hr

theorem costsLoop_dup_err (byp : List (String × List PricingNode))
    {lbl : List ((String × String) × PricingNode)}
    {num : List (String × PricingNode)} :
    ∀ (inputs : List Input) (acc : List (String × Rat)),
    (∀ inp ∈ inputs, input_resolves lbl num inp = true) →
    ((∃ inp ∈ inputs, (lookupL inp.path acc).isSome = true) ∨
      ¬ (inputs.map Input.path).Nodup) →
    ∃ p, costsLoop byp lbl num inputs acc = .error (.duplicateInputPath p) := by
  intro inputs
  induction inputs with
  | nil =>
    intro acc _ h
    rcases h with ⟨inp, hmem, _⟩ | hnd
    · simp at hmem
    · simp at hnd
  | cons inp rest ih =>
    intro acc hres h
    by_cases hdup : (lookupL inp.path acc).isSome = true
    · exact ⟨inp.path, by simp [costsLoop, hdup]⟩
    · have hnone : lookupL inp.path acc = none := by
        cases hacc : lookupL inp.path acc
        · rfl
        · simp [hacc] at hdup
      obtain ⟨c, hstep⟩ := costsLoop_cons_step rest hnone
        (hres inp (List.mem_cons_self _ _))
      have hself : lookupL inp.path (insertL inp.path c acc) = some c := by
        rw [insertL_fresh hnone, lookupL_append_none hnone]
        simp [lookupL]
      have hnext : (∃ inp' ∈ rest, (lookupL inp'.path (insertL inp.path c acc)).isSome = true) ∨
          ¬ (rest.map Input.path).Nodup := by
        rcases h with ⟨inp', hmem, hsome⟩ | hnd
        · rcases List.mem_cons.mp hmem with rfl | hr
          · rw [hnone] at hsome
            simp at hsome
          · refine .inl ⟨inp', hr, ?_⟩
            cases hx : lookupL inp'.path acc with
            | none => simp [hx] at hsome
            | some v =>
              rw [insertL_fresh hnone]
              simp [lookupL_append_left hx]
        · by_cases hnd2 : (rest.map Input.path).Nodup
          · have hin : inp.path ∈ rest.map Input.path := by
              by_contra hni
              exact hnd (List.nodup_cons.mpr ⟨hni, hnd2⟩)
            rcases List.mem_map.mp hin with ⟨inp', hinp', heq⟩
            refine .inl ⟨inp', hinp', ?_⟩
            rw [heq, hself]
            rfl
          · exact .inr hnd2
      obtain ⟨p, hp⟩ := ih _ (fun q hq => hres q (.tail _ hq)) hnext
      exact ⟨p, by rw [hstep]; exact hp⟩

/-- Counterexample to C7 as stated: a duplicated unknown path makes
`calculate` fail with the unknown-path error of the first occurrence, not
with a duplicate-path error. -/
theorem C7_counterexample_unknown_path_first :
    ¬ (List.map Input.path [⟨"/a", JValue.num 1⟩, ⟨"/a", JValue.num 1⟩]).Nodup ∧
    errOf (calculate [] ⟨1, none, []⟩ [⟨"/a", .num 1⟩, ⟨"/a", .num 1⟩]) =
      some (.noPricingNode "/a" []) ∧
    is_duplicate_path_error (errOf (calculate [] ⟨1, none, []⟩
      [⟨"/a", .num 1⟩, ⟨"/a", .num 1⟩])) = false := by
  decide

/-- C7 (amended): if the input list contains two inputs with the same
path, `calculate` never returns a `CalculationResult` (so no partial
breakdown is returned); the error is the duplicate-path error whenever
required-input validation passes and every input's `(path, value)` is
accepted by a node of the catalog (that is, when no earlier failure
preempts the duplicate check). -/
theorem C7_duplicate_path_rejection :
    ∀ (nodes : List PricingNode) (strat : PricingStrategy) (inputs : List Input),
    ¬ (inputs.map Input.path).Nodup →
    ((∀ r, calculate nodes strat inputs ≠ .ok r) ∧
     (validate_required_inputs strat inputs = .ok () →
      (∀ inp ∈ inputs, input_resolves (index_nodes_by_path nodes).2.1
        (index_nodes_by_path nodes).2.2 inp = true) →
      ∃ p, calculate nodes strat inputs = .error (.duplicateInputPath p))) := by
  intro nodes strat inputs hdup
  constructor
  · intro r hr
    cases hv : validate_required_inputs strat inputs with
    | error e => simp [calculate, hv] at hr
    | ok u =>
      simp only [calculate, hv, calculate_after_validation] at hr
      cases hc : calculate_input_costs inputs (index_nodes_by_path nodes).1
          (index_nodes_by_path nodes).2.1 (index_nodes_by_path nodes).2.2 with
      | error e => simp [hc] at hr
      | ok table =>
        exact hdup (costsLoop_ok_paths inputs [] table hc).1
  · intro hval hres
    obtain ⟨p, hp⟩ := costsLoop_dup_err
      (index_nodes_by_path nodes).1 inputs [] hres (.inr hdup)
    refine ⟨p, ?_⟩
    simp only [calculate, hval, calculate_after_validation]
    rw [show calculate_input_costs inputs (index_nodes_by_path nodes).1
      (index_nodes_by_path nodes).2.1 (index_nodes_by_path nodes).2.2 =
      costsLoop (index_nodes_by_path nodes).1 (index_nodes_by_path nodes).2.1
        (index_nodes_by_path nodes).2.2 inputs [] from rfl, hp]

/-- Witness for C7 (amended): duplicated resolvable inputs produce the
duplicate-path error. -/
theorem C7_duplicate_path_rejection_witness :
    ∃ p, calculate [⟨"/v", "numeric", 10, none⟩] ⟨1, none, []⟩
      [⟨"/v", .num 1⟩, ⟨"/v", .num 2⟩] = .error (.duplicateInputPath p) :=
  (C7_duplicate_path_rejection [⟨"/v", "numeric", 10, none⟩] ⟨1, none, []⟩
    [⟨"/v", .num 1⟩, ⟨"/v", .num 2⟩] (by decide)).2 rfl (by decide)

/-- Counterexample to C8 as stated: the pattern `"("` does not compile, and
the whole calculation ends in the modelled `unwrap` panic (a process
abort), not in a reported `Result::Err` value. -/
theorem C8_counterexample_unwrap_panic :
    errOf (calculate [] ⟨1, some ["("], []⟩ []) = some (.panicInvalidRegex "(") ∧
    (RErr.panicInvalidRegex "(").isPanic = true := by
  decide

/-- C8 (amended): a required-input pattern whose wildcard translation is
not a valid regular expression makes the calculation panic (the
`Regex::new(..).unwrap()` of source line 400 aborts the process), rather
than reporting a descriptive error value. -/
theorem C8_unparsable_pattern_panics :
    ∀ (nodes : List PricingNode) (inputs : List Input) (strat : PricingStrategy)
      (p : String) (rest : List String),
    strat.required_inputs = some (p :: rest) →
    regexValid p = false →
    calculate nodes strat inputs = .error (.panicInvalidRegex p) ∧
    (RErr.panicInvalidRegex p).isPanic = true := by
  intro nodes inputs strat p rest hreq hbad
  constructor
  · have hval : validate_required_inputs strat inputs =
        .error (.panicInvalidRegex p) := by
      simp [validate_required_inputs, hreq, validateLoop, get_regex, hbad]
    simp [calculate, hval]
  · rfl

/-- Witness for C8 (amended) at the concrete unparsable pattern. -/
theorem C8_unparsable_pattern_panics_witness :
    calculate [] ⟨1, some ["("], []⟩ [] = .error (.panicInvalidRegex "(") ∧
    (RErr.panicInvalidRegex "(").isPanic = true :=
  C8_unparsable_pattern_panics [] [] ⟨1, some ["("], []⟩ "(" [] rfl (by decide)

end PricingEngine
